import Mathlib

/-
Verification of the Ingress conversion rule of tiny-systems/helmify
(src/pkg/processor/service/ingress.go).

The Go file is shallowly embedded below.  External collaborators that are
not part of the source under verification are embedded as follows:
  - helmify.Values (map[string]interface{}) together with
    unstructured.SetNestedField / SetNestedStringMap from k8s apimachinery
    are modelled concretely as an association-list tree (`Value`/`Values`);
  - appMeta.TrimName and appMeta.TemplatedName are fields of `AppMeta`
    (modelled from the spec: pure, deterministic naming collaborators);
  - processor.ProcessObjMeta and yamlformat.Marshal are function
    parameters of `Process` (modelled from the spec: fallible collaborators
    returning a rendered metadata block resp. serialized text);
  - runtime.DefaultUnstructuredConverter.FromUnstructured is modelled as
    the `conv` field of `Unstructured`: the outcome of the external typed
    conversion for that document;
  - strcase.ToLowerCamel (iancoleman/strcase) is embedded faithfully for
    ASCII input (`toLowerCamel`), with the default empty acronym table.
-/

set_option autoImplicit false
set_option linter.unusedVariables false
set_option maxRecDepth 8192

namespace Helmify

/-! ## Values trees (helmify.Values and the nested-field helpers) -/

/-- A leaf or subtree of a `helmify.Values` tree: booleans, strings,
string-to-string maps (annotation maps) and nested maps. -/
inductive Value where
  | b : Bool → Value
  | s : String → Value
  | smap : List (String × String) → Value
  | m : List (String × Value) → Value
deriving Repr

/-- `helmify.Values`: a map from string keys to values, modelled as an
association list (Go map iteration order is irrelevant to the claims;
only lookups and updates are performed). -/
abbrev Values := List (String × Value)

/-- Update the binding of key `k` in an association list, appending the
binding if the key is absent (Go map assignment `m[k] = v`). -/
def alUpdate (k : String) (v : Value) : Values → Values
  | [] => [(k, v)]
  | (k2, v2) :: rest => if k2 = k then (k, v) :: rest else (k2, v2) :: alUpdate k v rest

/-- Look up key `k` in an association list (Go map read `m[k]`). -/
def alLookup (k : String) : Values → Option Value
  | [] => none
  | (k2, v2) :: rest => if k2 = k then some v2 else alLookup k rest

/-- `unstructured.SetNestedField obj value fields...`: descends along the
field path, creating intermediate maps where absent; if an intermediate
value exists and is not a map, the Go function reports an error (which
every call site in the source discards with `_ =`) and the tree is left
unchanged. -/
def setNestedField : Values → Value → List String → Values
  | m, _, [] => m
  | m, v, [k] => alUpdate k v m
  | m, v, k :: k2 :: rest =>
    match alLookup k m with
    | some (Value.m sub) => alUpdate k (Value.m (setNestedField sub v (k2 :: rest))) m
    | some _ => m
    | none => alUpdate k (Value.m (setNestedField [] v (k2 :: rest))) m

/-- Read a value at a nested field path (used to state what the rule wrote). -/
def getNested : Values → List String → Option Value
  | _, [] => none
  | m, [k] => alLookup k m
  | m, k :: k2 :: rest =>
    match alLookup k m with
    | some (Value.m sub) => getNested sub (k2 :: rest)
    | _ => none

/-! ## The k8s networking/v1 data the rule reads and writes -/

/-- schema.GroupVersionKind. -/
structure GroupVersionKind where
  group : String
  version : String
  kind : String
deriving DecidableEq, Repr

/-- The ingressGVC constant of the source. -/
def ingressGVC : GroupVersionKind :=
  { group := "networking.k8s.io", version := "v1", kind := "Ingress" }

/-- networkingv1.IngressServiceBackend (the port is carried, never touched). -/
structure IngressServiceBackend where
  name : String
  port : Nat
deriving Repr

/-- networkingv1.IngressBackend: the service reference is a Go pointer,
hence optional. -/
structure IngressBackend where
  service : Option IngressServiceBackend
deriving Repr

/-- networkingv1.HTTPIngressPath (path string carried, never touched). -/
structure HTTPIngressPath where
  path : String
  backend : IngressBackend
deriving Repr

/-- networkingv1.HTTPIngressRuleValue. -/
structure HTTPIngressRuleValue where
  paths : List HTTPIngressPath
deriving Repr

/-- networkingv1.IngressRule: the HTTP section is a Go pointer, hence
optional; the host is carried, never touched. -/
structure IngressRule where
  host : String
  http : Option HTTPIngressRuleValue
deriving Repr

/-- networkingv1.IngressSpec, restricted to the fields the rule reads or
writes (className, default backend, rules). -/
structure IngressSpec where
  ingressClassName : Option String
  defaultBackend : Option IngressBackend
  rules : List IngressRule
deriving Repr

/-! ## External collaborators -/

/-- Modelled from the spec: the naming utility consumed via
helmify.AppMetadata.  `trimName` strips the application-specific prefix
from a raw object name; `templatedName` produces the templated
cross-reference for a service name.  Both are pure functions. -/
structure AppMeta where
  trimName : String → String
  templatedName : String → String

/-- An unstructured input document as the rule observes it: its
group/version/kind tag, its metadata name and annotations, and the
outcome of the external typed conversion (FromUnstructured) on its body. -/
structure Unstructured where
  gvk : GroupVersionKind
  name : String
  annotations : List (String × String)
  conv : Except String IngressSpec

/-- Modelled from the spec: processor.ProcessObjMeta with the
WithAnnotations option.  Given the app metadata, the document and an
annotation sink, it returns the rendered metadata block together with the
updated sink, or an error. -/
abbrev MetaProc := AppMeta → Unstructured → Values → Except String (String × Values)

/-- Modelled from the spec: yamlformat.Marshal applied to a single-entry
map (top-level key, spec structure), returning serialized text or an
error. -/
abbrev Marshal := String × IngressSpec → Except String String

/-! ## strcase.ToLowerCamel (iancoleman/strcase), ASCII, empty acronym table -/

/-- One step of strcase's toCamelInitCase loop, for all byte positions
after the first: `capNext` records whether the next lowercase letter must
be capitalized. -/
def camelRest : List Char → Bool → List Char
  | [], _ => []
  | c :: rest, capNext =>
    if c.isLower then (if capNext then c.toUpper else c) :: camelRest rest false
    else if c.isUpper then c :: camelRest rest false
    else if c.isDigit then c :: camelRest rest true
    else camelRest rest (c == '_' || c == ' ' || c == '-' || c == '.')

/-- ASCII whitespace test used by strings.TrimSpace on ASCII input. -/
def isSpaceChar (c : Char) : Bool :=
  c == ' ' || c == '\t' || c == '\n' || c == '\r'

/-- strings.TrimSpace on a character list (ASCII). -/
def trimSpaceChars (cs : List Char) : List Char :=
  ((cs.dropWhile isSpaceChar).reverse.dropWhile isSpaceChar).reverse

/-- strcase.ToLowerCamel: trim surrounding whitespace, then run the
camel-casing loop with `initCase = false`, which lowercases a leading
uppercase letter (the position-zero special case of the Go loop). -/
def toLowerCamel (s : String) : String :=
  match trimSpaceChars s.data with
  | [] => ""
  | c :: rest =>
    if c.isUpper then String.mk (c.toLower :: camelRest rest false)
    else if c.isLower then String.mk (c :: camelRest rest false)
    else if c.isDigit then String.mk (c :: camelRest rest true)
    else String.mk (camelRest rest (c == '_' || c == ' ' || c == '-' || c == '.'))

/-- strings.TrimPrefix: drop `p` from the front of `s` when it is a
prefix, otherwise return `s` unchanged. -/
def trimPfx (p s : String) : String :=
  if s.take p.length = p then s.drop p.length else s

/-- The configuration-key derivation chain of Process (lines 53-55):
toLowerCamel applied to the trimmed name with a known prefix stripped. -/
def deriveConfigKey (am : AppMeta) (rawName : String) : String :=
  toLowerCamel (trimPfx "controller-manager-" (am.trimName rawName))

/-! ## The rewriting functions of the source -/

/-- Rewriting of one backend through TemplatedName, shared by the default
backend and the per-path backends of processIngressSpec; a backend with
no service reference is left untouched. -/
def templateBackend (appMeta : AppMeta) (b : IngressBackend) : IngressBackend :=
  match b.service with
  | some svc => { b with service := some { svc with name := appMeta.templatedName svc.name } }
  | none => b

/-- The body of the inner loop of processIngressSpec: rewrite the backend
service name of one path when a service reference is present. -/
def templatePath (appMeta : AppMeta) (p : HTTPIngressPath) : HTTPIngressPath :=
  match p.backend.service with
  | some _ => { p with backend := templateBackend appMeta p.backend }
  | none => p

/-- The body of the outer loop of processIngressSpec: rewrite every path
of a rule when its HTTP section is present. -/
def templateRule (appMeta : AppMeta) (r : IngressRule) : IngressRule :=
  match r.http with
  | some http => { r with http := some { http with paths := http.paths.map (templatePath appMeta) } }
  | none => r

/-- processIngressSpec: rewrite the default backend service name (when the
default backend and its service reference are present) and the service
name of every path of every rule (when the HTTP section and the service
reference are present) through TemplatedName; absent pointers are left
untouched. -/
def processIngressSpec (appMeta : AppMeta) (ing : IngressSpec) : IngressSpec :=
  let ing1 :=
    match ing.defaultBackend with
    | some db =>
      match db.service with
      | some _ => { ing with defaultBackend := some (templateBackend appMeta db) }
      | none => ing
    | none => ing
  { ing1 with rules := ing1.rules.map (templateRule appMeta) }

/-- processIngressEnabled: write `true` at shortNameCamel.ingress.enabled.
The typed ingress argument is received and ignored, as in the source. -/
def processIngressEnabled (shortNameCamel : String) (ing : IngressSpec) (values : Values) : Values :=
  setNestedField values (Value.b true) [shortNameCamel, "ingress", "enabled"]

/-- processIngressClassName: capture the concrete class name (empty string
when the pointer is nil) at shortNameCamel.ingress.className, then
overwrite the field with the template expression; always returns no
error (the trailing `return nil` of the Go function is the third
component). -/
def processIngressClassName (shortNameCamel : String) (ingSpec : IngressSpec) (values : Values) :
    IngressSpec × Values × Option String :=
  let className :=
    match ingSpec.ingressClassName with
    | some c => c
    | none => ""
  let values := setNestedField values (Value.s className) [shortNameCamel, "ingress", "className"]
  let className := "\x7b\x7b.Values." ++ shortNameCamel ++ ".ingress.className\x7d\x7d"
  ({ ingSpec with ingressClassName := some className }, values, none)

/-! ## The result object and Process -/

/-- The anonymous data struct rendered through ingressTempl. -/
structure IngressData where
  If : String
  Meta : String
  Spec : String
  End : String
deriving Repr

/-- The ingressResult returned by Process. -/
structure IngressResult where
  name : String
  data : IngressData
  values : Values
deriving Repr

/-- Filename() of ingressResult. -/
def IngressResult.filename (r : IngressResult) : String := r.name

/-- Write(): rendering ingressTempl, whose parsed body is the four
placeholders joined by single newlines. -/
def IngressResult.write (r : IngressResult) : String :=
  r.data.If ++ "\n" ++ r.data.Meta ++ "\n" ++ r.data.Spec ++ "\n" ++ r.data.End

/-- The (bool, helmify.Template, error) triple returned by Process. -/
structure ProcessOutput where
  applicable : Bool
  template : Option IngressResult
  error : Option String
deriving Repr

/-- Process (lines 38-90), with the external collaborators passed in:
applicability check on the GVK tag, typed conversion, metadata
processing into a fresh annotation sink, naming derivation, spec
rewriting, values extraction, spec serialization, verbatim annotation
passthrough, and assembly of the result. -/
def Process (mp : MetaProc) (mar : Marshal) (appMeta : AppMeta) (obj : Unstructured) :
    ProcessOutput :=
  if obj.gvk ≠ ingressGVC then { applicable := false, template := none, error := none }
  else
    match obj.conv with
    | Except.error e =>
      { applicable := true, template := none, error := some (e ++ ": unable to cast to ingress") }
    | Except.ok ing =>
      let av : Values := []
      match mp appMeta obj av with
      | Except.error e => { applicable := true, template := none, error := some e }
      | Except.ok (meta, _avOut) =>
        let name := appMeta.trimName obj.name
        let shortName := trimPfx "controller-manager-" name
        let shortNameCamel := toLowerCamel shortName
        let ingSpec := processIngressSpec appMeta ing
        let values := []
        let values := processIngressEnabled shortNameCamel ingSpec values
        match processIngressClassName shortNameCamel ingSpec values with
        | (_, _, some e) => { applicable := false, template := none, error := some e }
        | (ingSpec2, values2, none) =>
          match mar ("spec", ingSpec2) with
          | Except.error e => { applicable := true, template := none, error := some e }
          | Except.ok spec =>
            let values3 := setNestedField values2 (Value.smap obj.annotations)
              [shortNameCamel, "ingress", "annotations"]
            { applicable := true
              template := some
                { name := name ++ ".yaml"
                  data :=
                    { If := "\x7b\x7b- if .Values." ++ shortNameCamel ++ ".ingress.enabled \x7d\x7d"
                      Meta := meta
                      Spec := spec
                      End := "\x7b\x7b- end \x7d\x7d" }
                  values := values3 }
              error := none }


/-! ## Concrete fixtures used by the witnesses and the scenario claims -/

/-- An app metadata whose application prefix is "controller-manager-" and
whose templated cross-reference prepends a fixed marker. -/
def wAm : AppMeta :=
  { trimName := fun s => trimPfx "controller-manager-" s
    templatedName := fun s => "tplref:" ++ s }

def wSvc : IngressServiceBackend := { name := "def-svc", port := 80 }

def wDb : IngressBackend := { service := some wSvc }

/-- A typed spec with a class name, a default backend and one rule with
one path. -/
def wSpec : IngressSpec :=
  { ingressClassName := some "nginx"
    defaultBackend := some wDb
    rules := [ { host := "example.com"
                 http := some { paths := [ { path := "/"
                                             backend := { service := some { name := "app-svc", port := 8080 } } } ] } } ] }

/-- A matching input document carrying wSpec. -/
def wObj : Unstructured :=
  { gvk := ingressGVC
    name := "controller-manager-app-ingress"
    annotations := [("k1", "v1")]
    conv := Except.ok wSpec }

/-- A metadata processor that renders a fixed block and leaves the sink
as given. -/
def wMp : MetaProc := fun _ _ sink => Except.ok ("META-BLOCK", sink)

/-- A serializer that renders a fixed text. -/
def wMar : Marshal := fun _ => Except.ok "SPEC-YAML"

/-- A document of a non-matching kind. -/
def wObjSvc : Unstructured :=
  { gvk := { group := "", version := "v1", kind := "Service" }
    name := "controller-manager-app-ingress"
    annotations := []
    conv := Except.error "not an ingress" }

/-- The round-trip scenario spec: one rule, one path to app-svc, class
nginx, no default backend. -/
def c9spec : IngressSpec :=
  { ingressClassName := some "nginx"
    defaultBackend := none
    rules := [ { host := "app.example.com"
                 http := some { paths := [ { path := "/"
                                             backend := { service := some { name := "app-svc", port := 8080 } } } ] } } ] }

/-- The round-trip scenario document. -/
def c9obj : Unstructured :=
  { gvk := ingressGVC
    name := "controller-manager-app-ingress"
    annotations := []
    conv := Except.ok c9spec }

/-- A metadata processor that exercises the annotation-sink contract: it
writes one annotation value into the sink it is handed. -/
def wMpSink : MetaProc := fun _ _ sink =>
  Except.ok ("META-BLOCK", setNestedField sink (Value.s "sink-v") ["sinkRoot", "annotations", "a"])

/-! ## Helper lemmas -/

/-- The values tree Process returns on success: a single root keyed by the
derived configuration key, holding the ingress subtree with the enabled
flag, the captured class name and the verbatim annotations. -/
def finalValues (k : String) (c : String) (a : List (String × String)) : Values :=
  [(k, Value.m [("ingress",
      Value.m [("enabled", Value.b true), ("className", Value.s c), ("annotations", Value.smap a)])])]

lemma processIngressSpec_className (am : AppMeta) (ing : IngressSpec) :
    (processIngressSpec am ing).ingressClassName = ing.ingressClassName := by
  unfold processIngressSpec
  cases h : ing.defaultBackend with
  | none => simp [h]
  | some db => cases hs : db.service <;> simp [h, hs]

lemma processIngressSpec_rules (am : AppMeta) (ing : IngressSpec) :
    (processIngressSpec am ing).rules = ing.rules.map (templateRule am) := by
  unfold processIngressSpec
  cases h : ing.defaultBackend with
  | none => simp [h]
  | some db => cases hs : db.service <;> simp [h, hs]

/-- Evaluation of Process on the success path, given the outcomes of the
three fallible collaborators. -/
lemma Process_success (mp : MetaProc) (mar : Marshal) (am : AppMeta) (obj : Unstructured)
    (hg : obj.gvk = ingressGVC)
    (ing : IngressSpec) (hc : obj.conv = Except.ok ing)
    (meta : String) (avOut : Values) (hm : mp am obj [] = Except.ok (meta, avOut))
    (specStr : String)
    (hs : mar ("spec", (processIngressClassName (deriveConfigKey am obj.name) (processIngressSpec am ing)
      (processIngressEnabled (deriveConfigKey am obj.name) (processIngressSpec am ing) [])).1) = Except.ok specStr) :
    Process mp mar am obj =
      { applicable := true
        template := some
          { name := am.trimName obj.name ++ ".yaml"
            data := { If := "\x7b\x7b- if .Values." ++ deriveConfigKey am obj.name ++ ".ingress.enabled \x7d\x7d"
                      Meta := meta
                      Spec := specStr
                      End := "\x7b\x7b- end \x7d\x7d" }
            values := finalValues (deriveConfigKey am obj.name) (ing.ingressClassName.getD "") obj.annotations }
        error := none } := by
  unfold Process
  rw [if_neg (by simp [hg])]
  simp only [deriveConfigKey] at hs ⊢
  cases hcn : ing.ingressClassName with
  | none =>
    simp only [hc, hm]
    simp [processIngressClassName, processIngressEnabled, processIngressSpec_className, hcn,
      setNestedField, alLookup, alUpdate, finalValues] at hs ⊢
    rw [hs]
  | some c =>
    simp only [hc, hm]
    simp [processIngressClassName, processIngressEnabled, processIngressSpec_className, hcn,
      setNestedField, alLookup, alUpdate, finalValues] at hs ⊢
    rw [hs]

/-- Once the applicability check has accepted the document, every branch
of Process reports applicable. -/
lemma Process_applicable_of_gvk (mp : MetaProc) (mar : Marshal) (am : AppMeta) (obj : Unstructured)
    (hg : obj.gvk = ingressGVC) :
    (Process mp mar am obj).applicable = true := by
  unfold Process
  rw [if_neg (by simp [hg])]
  rcases hc : obj.conv with e | ing
  · simp only [hc]
  · simp only [hc]
    rcases hm : mp am obj [] with e | ⟨meta, avOut⟩
    · simp only [hm]
    · simp only [hm, processIngressClassName]
      split <;> rfl

/-- An error-free accepted invocation determines successful outcomes of
the three fallible collaborators. -/
lemma Process_error_none_success (mp : MetaProc) (mar : Marshal) (am : AppMeta) (obj : Unstructured)
    (hg : obj.gvk = ingressGVC) (he : (Process mp mar am obj).error = none) :
    ∃ ing meta avOut specStr,
      obj.conv = Except.ok ing ∧ mp am obj [] = Except.ok (meta, avOut) ∧
      mar ("spec", (processIngressClassName (deriveConfigKey am obj.name) (processIngressSpec am ing)
        (processIngressEnabled (deriveConfigKey am obj.name) (processIngressSpec am ing) [])).1)
        = Except.ok specStr := by
  unfold Process at he
  rw [if_neg (by simp [hg])] at he
  rcases hc : obj.conv with e | ing
  · rw [hc] at he; simp at he
  rw [hc] at he
  rcases hm : mp am obj [] with e | ⟨meta, avOut⟩
  · simp only [hm] at he; simp at he
  simp only [hm, processIngressClassName, deriveConfigKey] at he
  rcases hmar : mar ("spec",
      { (processIngressSpec am ing) with ingressClassName := some ("\x7b\x7b.Values."
          ++ toLowerCamel (trimPfx "controller-manager-" (am.trimName obj.name))
          ++ ".ingress.className\x7d\x7d") }) with e | spec
  · rw [hmar] at he; simp at he
  refine ⟨ing, meta, avOut, spec, rfl, rfl, ?_⟩
  simp only [deriveConfigKey, processIngressClassName]
  exact hmar

/-! ## The claims -/

/-- C1: for every input processed by Process, the class-selector field is
handled in two steps: the concrete class value (empty string when absent)
is written into the values tree at configKey.ingress.className, and the
typed structure's field is unconditionally overwritten with the template
expression referencing that path, whatever the input value was. -/
theorem claim_C1 (k : String) (spec ing0 : IngressSpec) :
    (∀ values : Values, ((processIngressClassName k spec values).1).ingressClassName
        = some ("\x7b\x7b.Values." ++ k ++ ".ingress.className\x7d\x7d"))
    ∧ getNested (processIngressClassName k spec (processIngressEnabled k ing0 [])).2.1
        [k, "ingress", "className"]
      = some (Value.s (spec.ingressClassName.getD "")) := by
  constructor
  · intro values
    rfl
  · cases h : spec.ingressClassName <;>
      simp [processIngressClassName, processIngressEnabled, h,
        setNestedField, alLookup, alUpdate, getNested]

/-- C2: every backend service name in the default backend and in every
path of every rule is rewritten through TemplatedName, and absent
portions (no default backend, no service reference, no HTTP section,
zero rules, zero paths) are left unchanged. -/
theorem claim_C2 (am : AppMeta) (spec : IngressSpec) :
    (∀ (db : IngressBackend) (svc : IngressServiceBackend), spec.defaultBackend = some db → db.service = some svc →
      (processIngressSpec am spec).defaultBackend
        = some { db with service := some { svc with name := am.templatedName svc.name } })
    ∧ (spec.defaultBackend = none → (processIngressSpec am spec).defaultBackend = none)
    ∧ (spec.rules = [] → (processIngressSpec am spec).rules = [])
    ∧ (∀ (i : Nat) (r : IngressRule), spec.rules[i]? = some r →
        ∃ r2, (processIngressSpec am spec).rules[i]? = some r2
          ∧ (r.http = none → r2 = r)
          ∧ (∀ (http : HTTPIngressRuleValue), r.http = some http →
              ∃ http2, r2.http = some http2
                ∧ http2.paths.length = http.paths.length
                ∧ (∀ (j : Nat) (p : HTTPIngressPath), http.paths[j]? = some p →
                    ∃ p2, http2.paths[j]? = some p2
                      ∧ (p.backend.service = none → p2 = p)
                      ∧ (∀ (svc : IngressServiceBackend), p.backend.service = some svc →
                          p2.backend.service
                            = some { svc with name := am.templatedName svc.name })))) := by
  refine ⟨?_, ?_, ?_, ?_⟩
  · intro db svc hdb hsvc
    simp [processIngressSpec, hdb, hsvc, templateBackend]
  · intro h
    simp [processIngressSpec, h]
  · intro h
    rw [processIngressSpec_rules]
    simp [h]
  · intro i r hr
    refine ⟨templateRule am r, ?_, ?_, ?_⟩
    · rw [processIngressSpec_rules]
      simp [hr]
    · intro hh
      simp [templateRule, hh]
    · intro http hh
      refine ⟨{ http with paths := http.paths.map (templatePath am) }, ?_, ?_, ?_⟩
      · simp [templateRule, hh]
      · simp
      · intro j p hp
        refine ⟨templatePath am p, ?_, ?_, ?_⟩
        · simp [hp]
        · intro hb
          simp [templatePath, hb]
        · intro svc hb
          simp [templatePath, hb, templateBackend]

/-- C2 witness: the default backend of the concrete fixture is rewritten. -/
theorem claim_C2_witness :
    wSpec.defaultBackend = some wDb ∧ wDb.service = some wSvc ∧
    (processIngressSpec wAm wSpec).defaultBackend
      = some { wDb with service := some { wSvc with name := wAm.templatedName wSvc.name } } :=
  ⟨rfl, rfl, (claim_C2 wAm wSpec).1 wDb wSvc rfl rfl⟩

/-- C3: whenever the applicability check accepts the document and Process
completes without error, the returned values tree contains
configKey.ingress.enabled = true, unconditionally. -/
theorem claim_C3 (mp : MetaProc) (mar : Marshal) (am : AppMeta) (obj : Unstructured)
    (hg : obj.gvk = ingressGVC) (he : (Process mp mar am obj).error = none) :
    ∃ res, (Process mp mar am obj).template = some res ∧
      getNested res.values [deriveConfigKey am obj.name, "ingress", "enabled"]
        = some (Value.b true) := by
  obtain ⟨ing, meta, avOut, specStr, hc, hm, hmar⟩ :=
    Process_error_none_success mp mar am obj hg he
  rw [Process_success mp mar am obj hg ing hc meta avOut hm specStr hmar]
  refine ⟨_, rfl, ?_⟩
  simp [finalValues, getNested, alLookup]

/-- C3 witness. -/
theorem claim_C3_witness :
    wObj.gvk = ingressGVC ∧ (Process wMp wMar wAm wObj).error = none ∧
    ∃ res, (Process wMp wMar wAm wObj).template = some res ∧
      getNested res.values [deriveConfigKey wAm wObj.name, "ingress", "enabled"]
        = some (Value.b true) :=
  ⟨rfl, rfl, claim_C3 wMp wMar wAm wObj rfl rfl⟩

/-- C4 fails on the code: the metadata processor writes an entry into its
annotation sink, Process succeeds, yet the returned values tree does not
contain that entry — the sink passed to ProcessObjMeta is discarded. -/
theorem claim_C4_bug :
    (∃ meta sink, wMpSink wAm wObj [] = Except.ok (meta, sink) ∧
      getNested sink ["sinkRoot", "annotations", "a"] = some (Value.s "sink-v")) ∧
    (Process wMpSink wMar wAm wObj).error = none ∧
    ∃ res, (Process wMpSink wMar wAm wObj).template = some res ∧
      getNested res.values ["sinkRoot", "annotations", "a"] = none := by
  refine ⟨⟨"META-BLOCK", _, rfl, rfl⟩, rfl, _, rfl, rfl⟩

/-- C5: the configuration key is the deterministic pure chain
toLowerCamel (stripPrefix "controller-manager-" (trimName rawName)): equal
raw names yield equal keys, and a successful invocation writes every
top-level values entry under exactly that key. -/
theorem claim_C5 (mp : MetaProc) (mar : Marshal) (am : AppMeta) (obj obj2 : Unstructured)
    (hname : obj.name = obj2.name)
    (hg : obj.gvk = ingressGVC) (he : (Process mp mar am obj).error = none) :
    deriveConfigKey am obj.name
        = toLowerCamel (trimPfx "controller-manager-" (am.trimName obj.name))
    ∧ deriveConfigKey am obj.name = deriveConfigKey am obj2.name
    ∧ ∃ res, (Process mp mar am obj).template = some res ∧
        ∀ kv ∈ res.values, kv.1 = deriveConfigKey am obj.name := by
  refine ⟨rfl, by rw [hname], ?_⟩
  obtain ⟨ing, meta, avOut, specStr, hc, hm, hmar⟩ :=
    Process_error_none_success mp mar am obj hg he
  rw [Process_success mp mar am obj hg ing hc meta avOut hm specStr hmar]
  refine ⟨_, rfl, ?_⟩
  intro kv hkv
  simp [finalValues] at hkv
  rw [hkv]

/-- C5 witness. -/
theorem claim_C5_witness :
    wObj.name = wObj.name ∧ wObj.gvk = ingressGVC ∧ (Process wMp wMar wAm wObj).error = none ∧
    (deriveConfigKey wAm wObj.name
        = toLowerCamel (trimPfx "controller-manager-" (wAm.trimName wObj.name))
      ∧ deriveConfigKey wAm wObj.name = deriveConfigKey wAm wObj.name
      ∧ ∃ res, (Process wMp wMar wAm wObj).template = some res ∧
          ∀ kv ∈ res.values, kv.1 = deriveConfigKey wAm wObj.name) :=
  ⟨rfl, rfl, rfl, claim_C5 wMp wMar wAm wObj wObj rfl rfl rfl⟩

/-- C6: a document whose kind/version tag does not match the Ingress rule
yields the not-applicable triple: applicable false, no template, nil
error, and no values tree. -/
theorem claim_C6 (mp : MetaProc) (mar : Marshal) (am : AppMeta) (obj : Unstructured)
    (h : obj.gvk ≠ ingressGVC) :
    Process mp mar am obj = { applicable := false, template := none, error := none } := by
  unfold Process
  rw [if_pos h]

/-- C6 witness: a Service document is rejected without error. -/
theorem claim_C6_witness :
    wObjSvc.gvk ≠ ingressGVC ∧
    Process wMp wMar wAm wObjSvc = { applicable := false, template := none, error := none } :=
  ⟨by decide, claim_C6 wMp wMar wAm wObjSvc (by decide)⟩

/-- C7: every key path written into the values tree of one invocation has
that invocation's derived configKey as its only root, so two successful
invocations with distinct derived keys produce values trees with disjoint
top-level keys and merge without collision. -/
theorem claim_C7 (mp : MetaProc) (mar : Marshal) (am : AppMeta) (obj : Unstructured)
    (hg : obj.gvk = ingressGVC) (he : (Process mp mar am obj).error = none) :
    (∃ res t, (Process mp mar am obj).template = some res ∧
        res.values = [(deriveConfigKey am obj.name, t)])
    ∧ (∀ (mp2 : MetaProc) (mar2 : Marshal) (am2 : AppMeta) (obj2 : Unstructured),
        obj2.gvk = ingressGVC → (Process mp2 mar2 am2 obj2).error = none →
        deriveConfigKey am2 obj2.name ≠ deriveConfigKey am obj.name →
        ∀ res res2 : IngressResult,
          (Process mp mar am obj).template = some res →
          (Process mp2 mar2 am2 obj2).template = some res2 →
          ∀ (k : String) (v : Value) (k2 : String) (v2 : Value),
            (k, v) ∈ res.values → (k2, v2) ∈ res2.values → k ≠ k2) := by
  obtain ⟨ing, meta, avOut, specStr, hc, hm, hmar⟩ :=
    Process_error_none_success mp mar am obj hg he
  have h1 := Process_success mp mar am obj hg ing hc meta avOut hm specStr hmar
  constructor
  · rw [h1]
    exact ⟨_, _, rfl, rfl⟩
  · intro mp2 mar2 am2 obj2 hg2 he2 hkey res res2 hres hres2 k v k2 v2 hk hk2
    obtain ⟨ing2, meta2, avOut2, specStr2, hc2, hm2, hmar2⟩ :=
      Process_error_none_success mp2 mar2 am2 obj2 hg2 he2
    have h2 := Process_success mp2 mar2 am2 obj2 hg2 ing2 hc2 meta2 avOut2 hm2 specStr2 hmar2
    rw [h1] at hres
    rw [h2] at hres2
    simp at hres hres2
    rw [← hres] at hk
    rw [← hres2] at hk2
    simp [finalValues] at hk hk2
    rw [hk.1, hk2.1]
    intro hcontra
    exact hkey hcontra.symm

/-- C7 witness. -/
theorem claim_C7_witness :
    wObj.gvk = ingressGVC ∧ (Process wMp wMar wAm wObj).error = none ∧
    ∃ res t, (Process wMp wMar wAm wObj).template = some res ∧
      res.values = [(deriveConfigKey wAm wObj.name, t)] :=
  ⟨rfl, rfl, (claim_C7 wMp wMar wAm wObj rfl rfl).1⟩

/-- C8: a successful invocation renders exactly four blocks in order —
the conditional-open expression on configKey.ingress.enabled, the
metadata block, the spec serialized under the single top-level key
"spec", and the fixed conditional-close marker — and the filename is the
trimmed resource name followed by ".yaml". -/
theorem claim_C8 (mp : MetaProc) (mar : Marshal) (am : AppMeta) (obj : Unstructured)
    (hg : obj.gvk = ingressGVC)
    (ing : IngressSpec) (hc : obj.conv = Except.ok ing)
    (meta : String) (avOut : Values) (hm : mp am obj [] = Except.ok (meta, avOut))
    (specStr : String)
    (hs : mar ("spec", (processIngressClassName (deriveConfigKey am obj.name) (processIngressSpec am ing)
      (processIngressEnabled (deriveConfigKey am obj.name) (processIngressSpec am ing) [])).1)
      = Except.ok specStr) :
    ∃ res, (Process mp mar am obj).template = some res ∧
      res.write = ("\x7b\x7b- if .Values." ++ deriveConfigKey am obj.name ++ ".ingress.enabled \x7d\x7d")
          ++ "\n" ++ meta ++ "\n" ++ specStr ++ "\n" ++ "\x7b\x7b- end \x7d\x7d"
      ∧ res.filename = am.trimName obj.name ++ ".yaml" := by
  rw [Process_success mp mar am obj hg ing hc meta avOut hm specStr hs]
  exact ⟨_, rfl, rfl, rfl⟩

/-- C8 witness. -/
theorem claim_C8_witness :
    wObj.gvk = ingressGVC ∧ wObj.conv = Except.ok wSpec ∧
    wMp wAm wObj [] = Except.ok ("META-BLOCK", []) ∧
    ∃ res, (Process wMp wMar wAm wObj).template = some res ∧
      res.write = ("\x7b\x7b- if .Values." ++ deriveConfigKey wAm wObj.name ++ ".ingress.enabled \x7d\x7d")
          ++ "\n" ++ "META-BLOCK" ++ "\n" ++ "SPEC-YAML" ++ "\n" ++ "\x7b\x7b- end \x7d\x7d"
      ∧ res.filename = wAm.trimName wObj.name ++ ".yaml" :=
  ⟨rfl, rfl, rfl, claim_C8 wMp wMar wAm wObj rfl wSpec rfl "META-BLOCK" [] rfl "SPEC-YAML" rfl⟩

/-- C9: on the document named controller-manager-app-ingress with one
rule, one path to service app-svc and class nginx (with the application
prefix instantiated as controller-manager-), Process yields configKey
appIngress, filename app-ingress.yaml, values appIngress.ingress.enabled
= true and appIngress.ingress.className = "nginx", and the path backend
service name rewritten to the templated reference of app-svc. -/
theorem claim_C9 :
    ∃ res, (Process wMp wMar wAm c9obj).template = some res ∧
      res.filename = "app-ingress.yaml" ∧
      res.data.If = "\x7b\x7b- if .Values.appIngress.ingress.enabled \x7d\x7d" ∧
      getNested res.values ["appIngress", "ingress", "enabled"] = some (Value.b true) ∧
      getNested res.values ["appIngress", "ingress", "className"] = some (Value.s "nginx") ∧
      ∃ r http p svc,
        (processIngressSpec wAm c9spec).rules = [r] ∧ r.http = some http ∧
        http.paths = [p] ∧ p.backend.service = some svc ∧
        svc.name = wAm.templatedName "app-svc" := by
  refine ⟨_, rfl, ?_, ?_, ?_, ?_, ?_⟩
  · rfl
  · rfl
  · rfl
  · rfl
  · exact ⟨_, _, _, _, rfl, rfl, rfl, rfl, rfl⟩

/-- C10: processIngressClassName returns no error on any input, so the
only branch of Process that pairs applicable=false with an error is
unreachable: every document whose tag matches the Ingress rule yields
applicable=true. -/
theorem claim_C10 :
    (∀ (k : String) (s : IngressSpec) (v : Values), (processIngressClassName k s v).2.2 = none)
    ∧ (∀ (mp : MetaProc) (mar : Marshal) (am : AppMeta) (obj : Unstructured),
        obj.gvk = ingressGVC → (Process mp mar am obj).applicable = true) :=
  ⟨fun _ _ _ => rfl, fun mp mar am obj hg => Process_applicable_of_gvk mp mar am obj hg⟩

/-- C10 witness: the concrete fixture matches the tag and is applicable. -/
theorem claim_C10_witness :
    wObj.gvk = ingressGVC ∧ (Process wMp wMar wAm wObj).applicable = true :=
  ⟨rfl, claim_C10.2 wMp wMar wAm wObj rfl⟩

end Helmify
